import Mathlib

/-!
Verification of the geometric clustering core of `scrapepdf.py`:
the line clusterer `calc_lines`, the area accumulator `TextArea`,
and the grouping orchestrator `TextGrouper`.

Coordinates are embedded as rationals (the Python code uses floats, but all
operations used are exact field/min/max/comparison operations, so ℚ is a
faithful carrier for the control flow).
-/

namespace ScrapePdf

/-- Properties attached to a text item by the special action functions
(the Python code stores them in the dynamic dict `item.props`; the key set
is closed: `type`, `bold`, `italic`, `startitem`, `rhsfollow`, so a struct
of optional fields is a faithful model; for the always-`True` keys
`bold`/`italic`/`startitem`, key presence is modelled as the Bool being
`true`). -/
structure Props where
  type : Option String
  bold : Bool
  italic : Bool
  startitem : Bool
  rhsfollow : Option ℚ
deriving DecidableEq

/-- The empty property map `{}`. -/
def Props.empty : Props :=
  ⟨none, false, false, false, none⟩

/-- A positioned text item (class `Text` of scrapepdf.py restricted to the
attributes the clustering core reads: geometry, fontspec size, raw text,
the presence of `<b>`/`<i>` child tags, and the `props` dict). -/
structure Frag where
  top : ℚ
  left : ℚ
  width : ℚ
  height : ℚ
  fontSize : ℚ
  text : String
  hasBoldTag : Bool
  hasItalicTag : Bool
  props : Props
deriving DecidableEq

/-- Python property `bottom = top + height`. -/
def Frag.bottom (f : Frag) : ℚ := f.top + f.height

/-- Python property `right = left + width`. -/
def Frag.right (f : Frag) : ℚ := f.left + f.width

/-- Vertical centre of an item, `(top + bottom) / 2` as used by `calc_lines`. -/
def Frag.mid (f : Frag) : ℚ := (f.top + f.bottom) / 2

/-- Lexicographic order on (centre, half-height) pairs: Python's list sort on
2-tuples of floats (`centres.sort()` and `lines.sort()` in `calc_lines`). -/
def pairLe (p q : ℚ × ℚ) : Prop :=
  p.1 < q.1 ∨ (p.1 = q.1 ∧ p.2 ≤ q.2)

instance : DecidableRel pairLe := fun p q => by
  unfold pairLe; exact inferInstance

/-- Order on items by key `(top, left)`: Python's
`sorted(items, key=lambda x: (x.top, x.left))` in `calc_lines`. -/
def fragLe (a b : Frag) : Prop :=
  a.top < b.top ∨ (a.top = b.top ∧ a.left ≤ b.left)

instance : DecidableRel fragLe := fun a b => by
  unfold fragLe; exact inferInstance

/-- Order on items by `left` alone: Python's `line.sort(key=lambda x: x.left)`
in `TextGrouper.group`. -/
def leftLe (a b : Frag) : Prop := a.left ≤ b.left

instance : DecidableRel leftLe := fun a b => by
  unfold leftLe; exact inferInstance

instance : IsTotal (ℚ × ℚ) pairLe :=
  ⟨fun p q => by
    unfold pairLe
    rcases lt_trichotomy p.1 q.1 with h | h | h
    · exact Or.inl (Or.inl h)
    · rcases le_total p.2 q.2 with h2 | h2
      · exact Or.inl (Or.inr ⟨h, h2⟩)
      · exact Or.inr (Or.inr ⟨h.symm, h2⟩)
    · exact Or.inr (Or.inl h)⟩

instance : IsTrans (ℚ × ℚ) pairLe :=
  ⟨fun p q r hpq hqr => by
    unfold pairLe at *
    rcases hpq with h | ⟨he, h2⟩
    · rcases hqr with h' | ⟨he', _⟩
      · exact Or.inl (h.trans h')
      · exact Or.inl (he' ▸ h)
    · rcases hqr with h' | ⟨he', h2'⟩
      · exact Or.inl (he ▸ h')
      · exact Or.inr ⟨he.trans he', h2.trans h2'⟩⟩

instance : IsTotal Frag fragLe :=
  ⟨fun a b => by
    unfold fragLe
    rcases lt_trichotomy a.top b.top with h | h | h
    · exact Or.inl (Or.inl h)
    · rcases le_total a.left b.left with h2 | h2
      · exact Or.inl (Or.inr ⟨h, h2⟩)
      · exact Or.inr (Or.inr ⟨h.symm, h2⟩)
    · exact Or.inr (Or.inl h)⟩

instance : IsTrans Frag fragLe :=
  ⟨fun a b c hab hbc => by
    unfold fragLe at *
    rcases hab with h | ⟨he, h2⟩
    · rcases hbc with h' | ⟨he', _⟩
      · exact Or.inl (h.trans h')
      · exact Or.inl (he' ▸ h)
    · rcases hbc with h' | ⟨he', h2'⟩
      · exact Or.inl (he ▸ h')
      · exact Or.inr ⟨he.trans he', h2.trans h2'⟩⟩

instance : IsTotal Frag leftLe := ⟨fun a b => le_total a.left b.left⟩

instance : IsTrans Frag leftLe := ⟨fun _ _ _ h h' => le_trans h h'⟩

/-- A provisional line band: (centre, half-height). -/
abbrev Band := ℚ × ℚ

/-- The centre-merging sweep of `calc_lines`: starting from `curline`,
walk the sorted centre list, merging a pair into the running band when its
centre is strictly closer than the larger half-height, otherwise closing the
band.  Mirrors the Python `for line in centres` loop (which starts with
`curline = centres[0]` and iterates over the whole list, first element
included), with the trailing `lines.append(curline)`. -/
def mergeCentres (cur : Band) : List Band → List Band
  | [] => [cur]
  | (c, h) :: rest =>
    if c - cur.1 < max h cur.2 then
      mergeCentres ((c + cur.1) / 2, max h cur.2) rest
    else
      cur :: mergeCentres (c, h) rest

/-- Outcome of the inner `while` loop of the grouping walk for one item. -/
inductive LineOutcome where
  | placed
  | single
  | dropped
deriving DecidableEq

/-- The inner `while linenum < len(lines)` loop of `calc_lines` for one item:
given the remaining bands and the openness of `curgroup`, return the remaining
bands after any cursor advances, the resulting openness of `curgroup`, and how
the item was handled: `placed` (it sits on the current band), `single`
(it was above the band centre without sitting on it, so it is emitted as a
singleton line), or `dropped` (the band list was exhausted — the Python loop
falls off the end and the item lands in no group). -/
def scanBands (item : Frag) : List Band → Bool → List Band × Bool × LineOutcome
  | [], cur => ([], cur, LineOutcome.dropped)
  | (centre, wid) :: rest, cur =>
    if |item.mid - centre| < wid then
      ((centre, wid) :: rest, cur, LineOutcome.placed)
    else if item.top < centre then
      ((centre, wid) :: rest, false, LineOutcome.single)
    else
      scanBands item rest false

/-- Append an item to the last group (the Python `curgroup.append(item)`,
where `curgroup`, when not `None`, is always the last list in `groups`). -/
def appendToLast : List (List Frag) → Frag → List (List Frag)
  | [], item => [[item]]
  | [g], item => [g ++ [item]]
  | g :: gs, item => g :: appendToLast gs item

/-- The outer grouping walk of `calc_lines`: iterate over the
`(top, left)`-sorted items, maintaining the shared band cursor, the openness
of `curgroup` and the accumulated groups. -/
def walkItems : List Frag → List Band → Bool → List (List Frag) → List (List Frag)
  | [], _, _, groups => groups
  | item :: rest, bands, cur, groups =>
    match scanBands item bands cur with
    | (bands2, cur2, LineOutcome.placed) =>
      let groups2 := if cur2 then appendToLast groups item else groups ++ [[item]]
      walkItems rest bands2 true groups2
    | (bands2, _, LineOutcome.single) =>
      walkItems rest bands2 false (groups ++ [[item]])
    | (bands2, cur2, LineOutcome.dropped) =>
      walkItems rest bands2 cur2 groups

/-- The line clusterer `calc_lines` of scrapepdf.py.  Returns `none` on an
empty input (the Python code raises `IndexError` at `centres[0]` there —
the spec's `EmptyInputError`), and the list of lines otherwise. -/
def calc_lines (items : List Frag) : Option (List (List Frag)) :=
  match items with
  | [] => none
  | _ :: _ =>
    let centres :=
      List.insertionSort pairLe
        (items.map (fun i => ((i.top + i.bottom) / 2, (i.bottom - i.top) / 2)))
    let bands :=
      match centres with
      | [] => []
      | c0 :: _ => mergeCentres c0 centres
    let bands := List.insertionSort pairLe bands
    some (walkItems (List.insertionSort fragLe items) bands false [])

/-- The grab allowance list `self.grab = [left, right, top, bottom]` of
`TextArea` (extra offsets to grab items in each direction). -/
structure Grab where
  gl : ℚ
  gr : ℚ
  gt : ℚ
  gb : ℚ
deriving DecidableEq

/-- First-write-wins merge of an item's props into an area's props:
`if k not in self.props: self.props[k] = v` in `TextArea.add` (for the
always-`True` keys, presence-OR is the same operation). -/
def Props.merge (a b : Props) : Props :=
  ⟨a.type <|> b.type, a.bold || b.bold, a.italic || b.italic,
   a.startitem || b.startitem, a.rhsfollow <|> b.rhsfollow⟩

/-- An accumulated text area (`class TextArea` of scrapepdf.py): bounding box,
grab allowances, contained items in insertion order, lazily assigned lines,
and merged props. -/
structure TextArea where
  left : ℚ
  right : ℚ
  top : ℚ
  bottom : ℚ
  grab : Grab
  items : List Frag
  lines : Option (List (List Frag))
  props : Props
deriving DecidableEq

/-- The body of `TextArea.add`: append the item, expand the bounding box by
min/max, reset the grab allowances to `[0, 0, 0, 0]` except that `grab[1]`
is set from the item's `rhsfollow` prop when present, and merge the item's
props first-write-wins. -/
def TextArea.add (a : TextArea) (item : Frag) : TextArea :=
  { a with
    items := a.items ++ [item]
    left := min a.left item.left
    right := max a.right item.right
    top := min a.top item.top
    bottom := max a.bottom item.bottom
    grab := ⟨0, (item.props.rhsfollow.getD 0), 0, 0⟩
    props := a.props.merge item.props }

/-- The constructor `TextArea(item)`: box from the item, zero grab, empty
items/props, `lines = None`, then `self.add(item)`. -/
def TextArea.init (item : Frag) : TextArea :=
  TextArea.add
    ⟨item.left, item.right, item.top, item.bottom, ⟨0, 0, 0, 0⟩, [], none, Props.empty⟩
    item

/-- The distance computation `TextArea.dist`: horizontal gap toward the side
the item lies on (less the matching grab allowance, clamped at 0), likewise
vertically, and their sum. -/
def TextArea.dist (a : TextArea) (item : Frag) : ℚ × ℚ × ℚ :=
  let hdist :=
    if a.left < item.left then item.left - a.right - a.grab.gr
    else a.left - item.right - a.grab.gl
  let hdist := if hdist < 0 then 0 else hdist
  let vdist :=
    if a.top < item.top then item.top - a.bottom - a.grab.gb
    else a.top - item.bottom - a.grab.gt
  let vdist := if vdist < 0 then 0 else vdist
  (hdist, vdist, hdist + vdist)

/-- The type filter inside the candidate scan of `TextGrouper.merge_item`:
an area is skipped iff the item's `type` prop is set and the area's `type`
prop differs from it. -/
def eligibleArea (item : Frag) (a : TextArea) : Bool :=
  match item.props.type with
  | none => true
  | some t => decide (a.props.type = some t)

/-- The candidate scan of `TextGrouper.merge_item`: enumerate the areas,
skipping ineligible ones, keeping the tuple `(num, dist, hdist, vdist)` of
the closest area seen so far, updated only on a strictly smaller total
distance (`closest[1] > dist`). -/
def findClosest (item : Frag) : List TextArea → Nat → Option (Nat × ℚ × ℚ × ℚ) →
    Option (Nat × ℚ × ℚ × ℚ)
  | [], _, closest => closest
  | a :: rest, num, closest =>
    if eligibleArea item a then
      match a.dist item with
      | (hdist, vdist, d) =>
        match closest with
        | none => findClosest item rest (num + 1) (some (num, d, hdist, vdist))
        | some (n0, d0, h0, v0) =>
          if d0 > d then findClosest item rest (num + 1) (some (num, d, hdist, vdist))
          else findClosest item rest (num + 1) (some (n0, d0, h0, v0))
    else findClosest item rest (num + 1) closest

/-- In-place update of the n-th list element (`self.areas[closest[0]].add(item)`
mutates the area where it sits in the list). -/
def modifyAt : List TextArea → Nat → (TextArea → TextArea) → List TextArea
  | [], _, _ => []
  | a :: rest, 0, f => f a :: rest
  | a :: rest, n + 1, f => a :: modifyAt rest n f

/-- A pattern rule: a literal string (matched by exact equality after
trimming) or a predicate standing for a compiled regex searched anywhere in
the text. -/
inductive Pattern where
  | lit : String → Pattern
  | re : (String → Bool) → Pattern

/-- The grouper state (`class TextGrouper`): accumulated areas and the
registered pattern rules.  The special action functions are the fixed list
applied in `applySpecials`. -/
structure TextGrouper where
  areas : List TextArea
  patterns : List (Pattern × String)

/-- The constructor `TextGrouper()`: no areas, no patterns. -/
def TextGrouper.mkNew : TextGrouper := ⟨[], []⟩

/-- Method `TextGrouper.add_patterns`: append to the ordered rule list. -/
def TextGrouper.add_patterns (g : TextGrouper) (ps : List (Pattern × String)) :
    TextGrouper :=
  { g with patterns := g.patterns ++ ps }

/-- Modelled from the spec: `clear_areas` is invoked by both example scripts
(`src/examples/debate/scrapedebate.py` line 35 and
`src/examples/marriage/parse_gro_scotland_marriage_places.py` line 25) but
its definition is missing from `src/scrapepdf.py`; per spec section 4.4,
"clearAreas(): discard all AreaAccumulators, ready for the next page". -/
def TextGrouper.clear_areas (g : TextGrouper) : TextGrouper :=
  { g with areas := [] }

/-- Method `TextGrouper.merge_item`: create a fresh area when no areas exist;
otherwise scan for the closest eligible area and add the item to it when its
horizontal gap is at most the item's font size and its vertical gap is at most
the item's height, else append a fresh area. -/
def TextGrouper.merge_item (g : TextGrouper) (item : Frag) : TextGrouper :=
  if g.areas = [] then { g with areas := g.areas ++ [TextArea.init item] }
  else
    match findClosest item g.areas 0 none with
    | none => { g with areas := g.areas ++ [TextArea.init item] }
    | some (n, _, hdist, vdist) =>
      if hdist > item.fontSize ∨ vdist > item.height then
        { g with areas := g.areas ++ [TextArea.init item] }
      else
        { g with areas := modifyAt g.areas n (fun a => a.add item) }

/-- Python `lstrip()` on a string (drop leading whitespace). -/
def lstrip (s : String) : String :=
  String.mk (s.data.dropWhile Char.isWhitespace)

/-- Python `strip()` on a string (drop leading and trailing whitespace). -/
def strip (s : String) : String :=
  String.mk
    (((s.data.dropWhile Char.isWhitespace).reverse.dropWhile Char.isWhitespace).reverse)

/-- Python `s.startswith(c)` for a single-character prefix. -/
def startsWithChar (s : String) (c : Char) : Bool :=
  match s.data with
  | [] => false
  | d :: _ => d == c

/-- Python `s[1:]`: drop the first character. -/
def dropFirst (s : String) : String :=
  String.mk (s.data.drop 1)

/-- Python `s.endswith(c)` for a single-character suffix. -/
def endsWithChar (s : String) (c : Char) : Bool :=
  match s.data.getLast? with
  | none => false
  | some d => d == c

/-- Special action `act_ignore_empty`: raise `IgnoreItem` (here: `none`) when
the trimmed text is empty. -/
def act_ignore_empty (item : Frag) : Option Frag :=
  if strip item.text = "" then none else some item

/-- Special action `act_weights`: set the `bold`/`italic` props from `<b>`
and `<i>` child tags. -/
def act_weights (item : Frag) : Frag :=
  let p1 := if item.hasBoldTag then { item.props with bold := true } else item.props
  let p2 := if item.hasItalicTag then { p1 with italic := true } else p1
  { item with props := p2 }

/-- The first-match-wins rule scan of `act_patterns` over the trimmed text. -/
def matchPatterns : List (Pattern × String) → String → Option String
  | [], _ => none
  | (Pattern.lit s, label) :: rest, text =>
    if strip s = text then some label else matchPatterns rest text
  | (Pattern.re f, label) :: rest, text =>
    if f text then some label else matchPatterns rest text

/-- Special action `act_patterns`: set the `type` prop from the first
matching rule, if any. -/
def act_patterns (patterns : List (Pattern × String)) (item : Frag) : Frag :=
  match matchPatterns patterns (strip item.text) with
  | none => item
  | some label => { item with props := { item.props with type := some label } }

/-- Special action `act_bullet`: when the left-stripped text starts with the
bullet glyph, strip the glyph, set `startitem`, and when nothing remains set
`rhsfollow = 300`. -/
def act_bullet (item : Frag) : Frag :=
  let ltext := lstrip item.text
  if startsWithChar ltext '\uf0b7' then
    let item := { item with text := dropFirst ltext,
                            props := { item.props with startitem := true } }
    if strip item.text = "" then
      { item with props := { item.props with rhsfollow := some 300 } }
    else item
  else item

/-- Special action `act_colon_end`: when the trimmed text ends with a colon,
set `rhsfollow = 300`. -/
def act_colon_end (item : Frag) : Frag :=
  if endsWithChar (strip item.text) ':' then
    { item with props := { item.props with rhsfollow := some 300 } }
  else item

/-- The special-action pipeline of `TextGrouper.group`: reset `item.props`
to `{}`, then apply the five special actions in their fixed registration
order; `none` means the item was ignored (`IgnoreItem`). -/
def applySpecials (patterns : List (Pattern × String)) (item : Frag) : Option Frag :=
  match act_ignore_empty { item with props := Props.empty } with
  | none => none
  | some item => some (act_colon_end (act_bullet (act_patterns patterns (act_weights item))))

/-- Method `TextArea.assign_lines`: populate `self.lines` from the items. -/
def TextArea.assign_lines (a : TextArea) : TextArea :=
  { a with lines := calc_lines a.items }

/-- The per-item body of the loop in `TextGrouper.group`: run the special
actions; on `IgnoreItem` skip the item (`continue`), otherwise merge it. -/
def TextGrouper.groupStep (gg : TextGrouper) (item : Frag) : TextGrouper :=
  match applySpecials gg.patterns item with
  | none => gg
  | some item2 => gg.merge_item item2

/-- Method `TextGrouper.group`: cluster the items into lines, flatten the
lines after sorting each by `left`, run the special actions on each item and
merge the surviving items in that order, then assign lines to every area.
Returns `none` for an empty input page (where `calc_lines` fails). -/
def TextGrouper.group (g : TextGrouper) (textitems : List Frag) : Option TextGrouper :=
  match calc_lines textitems with
  | none => none
  | some lns =>
    let text_in_lines := (lns.map (List.insertionSort leftLe)).flatten
    let g2 := text_in_lines.foldl TextGrouper.groupStep g
    some { g2 with areas := g2.areas.map TextArea.assign_lines }

/-- Specification of the candidate scan after the first `k` areas have been
examined: `none` means no eligible area among them, `some (n, d, hd, vd)`
means area `n` is an eligible area among the first `k`, its distance triple
is `(hd, vd, d)`, its total gap `d` is minimal among the eligible areas seen
so far, and `n` is the earliest index attaining it. -/
def ClosestSpec (item : Frag) (areas : List TextArea) (k : Nat) :
    Option (Nat × ℚ × ℚ × ℚ) → Prop
  | none =>
    ∀ m (hm : m < areas.length), m < k →
      eligibleArea item (areas.get ⟨m, hm⟩) = false
  | some (n, d, hd, vd) =>
    n < k ∧ ∃ hn : n < areas.length,
      eligibleArea item (areas.get ⟨n, hn⟩) = true
      ∧ (areas.get ⟨n, hn⟩).dist item = (hd, vd, d)
      ∧ ∀ m (hm : m < areas.length), m < k →
          eligibleArea item (areas.get ⟨m, hm⟩) = true →
          d ≤ ((areas.get ⟨m, hm⟩).dist item).2.2
          ∧ (((areas.get ⟨m, hm⟩).dist item).2.2 = d → n ≤ m)

/-- A zero-height text item: geometry allowed by the spec's Fragment
invariant (width ≥ 0, height ≥ 0). -/
def droppedFrag : Frag :=
  ⟨5, 0, 1, 0, 10, "x", false, false, Props.empty⟩

/-- First item of the one-line ordering counterexample: upper but far right. -/
def lineFragA : Frag :=
  ⟨0, 100, 1, 10, 10, "A", false, false, Props.empty⟩

/-- Second item of the one-line ordering counterexample: slightly lower but
far left; its centre band merges with `lineFragA`'s. -/
def lineFragB : Frag :=
  ⟨2, 0, 1, 10, 10, "B", false, false, Props.empty⟩

/-- An item carrying a `type` prop, as left by a pattern match. -/
def typedFrag : Frag :=
  ⟨0, 0, 10, 10, 10, "T", false, false, ⟨some "h", false, false, false, none⟩⟩

/-- An item overlapping `typedFrag` with no `type` prop. -/
def untypedFrag : Frag :=
  ⟨0, 0, 10, 10, 10, "U", false, false, Props.empty⟩

/-- A second typed item overlapping `typedFrag`, with the same type. -/
def typedFrag2 : Frag :=
  ⟨0, 0, 10, 10, 10, "V", false, false, ⟨some "h", false, false, false, none⟩⟩

/-- Page item for the first `group` call of the cross-call scenario. -/
def crossFragX : Frag :=
  ⟨0, 0, 10, 10, 10, "x", false, false, Props.empty⟩

/-- Page item for the second `group` call of the cross-call scenario,
overlapping `crossFragX`. -/
def crossFragY : Frag :=
  ⟨0, 0, 10, 10, 10, "y", false, false, Props.empty⟩

/-- The grouper state after grouping the one-item page `[crossFragX]`. -/
def wGrouped : TextGrouper :=
  (TextGrouper.mkNew.group [crossFragX]).getD TextGrouper.mkNew

/-- The single area of `wGrouped`. -/
def wArea : TextArea :=
  wGrouped.areas.headD (TextArea.init crossFragX)

attribute [local semireducible] Rat.add Rat.mul Rat.inv Rat.sub

theorem foldl_add_items (a : TextArea) (fs : List Frag) :
    (fs.foldl TextArea.add a).items = a.items ++ fs := by
  induction fs generalizing a with
  | nil => simp
  | cons f fs ih => simp [List.foldl_cons, ih, TextArea.add]

theorem foldl_add_left (a : TextArea) (fs : List Frag) :
    (fs.foldl TextArea.add a).left = (fs.map Frag.left).foldl min a.left := by
  induction fs generalizing a with
  | nil => rfl
  | cons f fs ih => simp [List.foldl_cons, ih, TextArea.add]

theorem foldl_add_right (a : TextArea) (fs : List Frag) :
    (fs.foldl TextArea.add a).right = (fs.map Frag.right).foldl max a.right := by
  induction fs generalizing a with
  | nil => rfl
  | cons f fs ih => simp [List.foldl_cons, ih, TextArea.add]

theorem foldl_add_top (a : TextArea) (fs : List Frag) :
    (fs.foldl TextArea.add a).top = (fs.map Frag.top).foldl min a.top := by
  induction fs generalizing a with
  | nil => rfl
  | cons f fs ih => simp [List.foldl_cons, ih, TextArea.add]

theorem foldl_add_bottom (a : TextArea) (fs : List Frag) :
    (fs.foldl TextArea.add a).bottom = (fs.map Frag.bottom).foldl max a.bottom := by
  induction fs generalizing a with
  | nil => rfl
  | cons f fs ih => simp [List.foldl_cons, ih, TextArea.add]

theorem appendToLast_flatten (gs : List (List Frag)) (item : Frag) :
    (appendToLast gs item).flatten = gs.flatten ++ [item] := by
  induction gs with
  | nil => simp [appendToLast]
  | cons g gs ih =>
    cases gs with
    | nil => simp [appendToLast]
    | cons g2 gs2 => simp [appendToLast, ih]

theorem walkItems_flatten (its : List Frag) :
    ∀ (bands : List Band) (cur : Bool) (groups : List (List Frag)),
      ∃ s, (walkItems its bands cur groups).flatten = groups.flatten ++ s
        ∧ s.Sublist its := by
  induction its with
  | nil =>
    intro bands cur groups
    exact ⟨[], by simp [walkItems], List.nil_sublist _⟩
  | cons item rest ih =>
    intro bands cur groups
    rcases hscan : scanBands item bands cur with ⟨bands2, cur2, out⟩
    cases out with
    | placed =>
      obtain ⟨s, hs, hsub⟩ :=
        ih bands2 true (if cur2 then appendToLast groups item else groups ++ [[item]])
      refine ⟨item :: s, ?_, hsub.cons₂ item⟩
      have hw : walkItems (item :: rest) bands cur groups =
          walkItems rest bands2 true
            (if cur2 then appendToLast groups item else groups ++ [[item]]) := by
        rw [walkItems, hscan]
      rw [hw, hs]
      cases cur2 with
      | true => simp [appendToLast_flatten]
      | false => simp
    | single =>
      obtain ⟨s, hs, hsub⟩ := ih bands2 false (groups ++ [[item]])
      refine ⟨item :: s, ?_, hsub.cons₂ item⟩
      have hw : walkItems (item :: rest) bands cur groups =
          walkItems rest bands2 false (groups ++ [[item]]) := by
        rw [walkItems, hscan]
      rw [hw, hs]
      simp
    | dropped =>
      obtain ⟨s, hs, hsub⟩ := ih bands2 cur2 groups
      refine ⟨s, ?_, hsub.cons item⟩
      have hw : walkItems (item :: rest) bands cur groups =
          walkItems rest bands2 cur2 groups := by
        rw [walkItems, hscan]
      rw [hw, hs]

theorem walkItems_sorted (its : List Frag) (bands : List Band) :
    List.Sorted fragLe
      (walkItems (List.insertionSort fragLe its) bands false []).flatten := by
  obtain ⟨s, hs, hsub⟩ := walkItems_flatten (List.insertionSort fragLe its) bands false []
  rw [hs]
  simp only [List.flatten_nil, List.nil_append]
  exact List.Pairwise.sublist hsub (List.sorted_insertionSort fragLe its)

theorem modifyAt_mem (l : List TextArea) (n : Nat) (f : TextArea → TextArea) :
    ∀ a ∈ modifyAt l n f, a ∈ l ∨ ∃ b, b ∈ l ∧ a = f b := by
  induction l generalizing n with
  | nil => intro a ha; simp [modifyAt] at ha
  | cons x rest ih =>
    intro a ha
    cases n with
    | zero =>
      rcases List.mem_cons.mp ha with ha | ha
      · exact Or.inr ⟨x, List.mem_cons_self x rest, ha⟩
      · exact Or.inl (List.mem_cons_of_mem x ha)
    | succ n =>
      rcases List.mem_cons.mp ha with ha | ha
      · exact Or.inl (ha ▸ List.mem_cons_self x rest)
      · rcases ih n a ha with h | ⟨b, hb, hab⟩
        · exact Or.inl (List.mem_cons_of_mem x h)
        · exact Or.inr ⟨b, List.mem_cons_of_mem x hb, hab⟩

theorem init_items (item : Frag) : (TextArea.init item).items = [item] := rfl

theorem add_items (a : TextArea) (item : Frag) :
    (a.add item).items = a.items ++ [item] := rfl

theorem merge_item_keeps_nonempty (g : TextGrouper) (item : Frag)
    (h : ∀ a ∈ g.areas, a.items ≠ []) :
    ∀ a ∈ (g.merge_item item).areas, a.items ≠ [] := by
  intro a ha
  unfold TextGrouper.merge_item at ha
  split at ha
  · rcases List.mem_append.mp ha with ha | ha
    · exact h a ha
    · rw [List.mem_singleton.mp ha, init_items]; simp
  · split at ha
    · rcases List.mem_append.mp ha with ha | ha
      · exact h a ha
      · rw [List.mem_singleton.mp ha, init_items]; simp
    · split at ha
      · rcases List.mem_append.mp ha with ha | ha
        · exact h a ha
        · rw [List.mem_singleton.mp ha, init_items]; simp
      · rcases modifyAt_mem _ _ _ a ha with ha | ⟨b, hb, hab⟩
        · exact h a ha
        · rw [hab, add_items]; simp

theorem foldl_groupStep_nonempty (its : List Frag) :
    ∀ (g : TextGrouper), (∀ a ∈ g.areas, a.items ≠ []) →
      ∀ a ∈ (its.foldl TextGrouper.groupStep g).areas, a.items ≠ [] := by
  induction its with
  | nil => intro g hg; simpa using hg
  | cons i rest ih =>
    intro g hg
    rw [List.foldl_cons]
    apply ih
    unfold TextGrouper.groupStep
    split
    · exact hg
    · exact merge_item_keeps_nonempty g _ hg

theorem calc_lines_isSome (l : List Frag) (h : l ≠ []) :
    (calc_lines l).isSome := by
  cases l with
  | nil => exact absurd rfl h
  | cons x xs => simp [calc_lines]

/-- C1: `calc_lines` silently drops a zero-height fragment, although the
fragment satisfies the spec's Fragment invariant (width ≥ 0, height ≥ 0):
its centre band has half-height 0, so the strict containment test
`|mid - centre| < wid` can never hold, and the recovery test `top < centre`
fails with equality, so the walk falls off the end of the band list and the
returned lines are empty — the fragment appears in no line and the total
count across lines is 0, not 1. -/
theorem calc_lines_drops_zero_height_item :
    calc_lines [droppedFrag] = some []
    ∧ 0 ≤ droppedFrag.width ∧ 0 ≤ droppedFrag.height := by
  refine ⟨by decide, by decide, by decide⟩

/-- C2 counterexample: the type filter is not symmetric.  `untypedFrag`
carries no `type` prop, yet `merge_item` merges it into the area created from
`typedFrag`, whose `type` prop is `some "h"` — so a fragment with no type
annotation can be merged into an area whose type annotation is set. -/
theorem untyped_fragment_merges_into_typed_area :
    untypedFrag.props.type = none
    ∧ ((TextGrouper.mkNew.merge_item typedFrag).merge_item untypedFrag).areas.map
        (fun a => (a.props.type, a.items)) = [(some "h", [typedFrag, untypedFrag])] := by
  refine ⟨rfl, by decide⟩

/-- C2 (amended): the type filter of the merge decision is one-directional:
an area is eligible for a fragment iff the fragment's `type` annotation is
unset (in which case every area is eligible, typed or not) or the area's
`type` annotation equals the fragment's. -/
theorem type_filter_one_directional (item : Frag) (a : TextArea) :
    eligibleArea item a = true
    ↔ (item.props.type = none ∨ a.props.type = item.props.type) := by
  unfold eligibleArea
  cases ht : item.props.type with
  | none => simp
  | some t => simp [ht]

/-- C5 counterexample: two fragments that `calc_lines` puts on one line in
the order `lineFragA`, `lineFragB` (their `(top, left)` sort order), although
`lineFragB.left < lineFragA.left` — within-line order is not non-decreasing
in `left`, and no singleton-recovery insertion is involved (both fragments
share the single output line). -/
theorem within_line_not_sorted_by_left :
    calc_lines [lineFragA, lineFragB] = some [[lineFragA, lineFragB]]
    ∧ lineFragB.left < lineFragA.left := by
  refine ⟨by decide, by decide⟩

/-- C5 (amended): the concatenation of the lines returned by `calc_lines`
is non-decreasing in the lexicographic `(top, left)` order — so consecutive
lines appear in that order and, within each line, fragments are
non-decreasing in `(top, left)` (not in `left` alone when tops differ). -/
theorem calc_lines_flatten_ordered (items : List Frag) (gs : List (List Frag))
    (h : calc_lines items = some gs) :
    List.Sorted fragLe gs.flatten := by
  cases items with
  | nil => simp [calc_lines] at h
  | cons i its =>
    simp only [calc_lines, Option.some.injEq] at h
    rw [← h]
    exact walkItems_sorted (i :: its) _

/-- Witness for `calc_lines_flatten_ordered` at the concrete two-fragment
line of the counterexample. -/
theorem calc_lines_flatten_ordered_witness :
    List.Sorted fragLe ([[lineFragA, lineFragB]] : List (List Frag)).flatten :=
  calc_lines_flatten_ordered [lineFragA, lineFragB] [[lineFragA, lineFragB]] (by decide)

/-- C6: `clear_areas` discards all accumulated areas (leaving the collection
empty) and touches nothing else (the pattern rules survive), so one grouper
instance can process the next page without cross-page area state.  The
operation itself is modelled from the spec, its definition being absent from
`src/scrapepdf.py` while both example scripts call it. -/
theorem clear_areas_resets (g : TextGrouper) :
    (g.clear_areas).areas = [] ∧ (g.clear_areas).patterns = g.patterns :=
  ⟨rfl, rfl⟩

/-- C7: after any sequence of `add` calls on an area created from `f0`, the
area holds exactly the added fragments and its bounding box is the minimal
box containing them all: each side is the min (resp. max) of the fragments'
sides; moreover a single `add` never shrinks the box in any direction. -/
theorem area_box_is_minimal_union (f0 : Frag) (fs : List Frag) :
    (fs.foldl TextArea.add (TextArea.init f0)).items = f0 :: fs
    ∧ (fs.foldl TextArea.add (TextArea.init f0)).left
        = (fs.map Frag.left).foldl min f0.left
    ∧ (fs.foldl TextArea.add (TextArea.init f0)).right
        = (fs.map Frag.right).foldl max f0.right
    ∧ (fs.foldl TextArea.add (TextArea.init f0)).top
        = (fs.map Frag.top).foldl min f0.top
    ∧ (fs.foldl TextArea.add (TextArea.init f0)).bottom
        = (fs.map Frag.bottom).foldl max f0.bottom
    ∧ ∀ (b : TextArea) (f : Frag),
        (b.add f).left ≤ b.left ∧ b.right ≤ (b.add f).right
        ∧ (b.add f).top ≤ b.top ∧ b.bottom ≤ (b.add f).bottom := by
  refine ⟨?_, ?_, ?_, ?_, ?_, ?_⟩
  · rw [foldl_add_items]; rfl
  · rw [foldl_add_left]
    have : (TextArea.init f0).left = f0.left := by
      simp [TextArea.init, TextArea.add]
    rw [this]
  · rw [foldl_add_right]
    have : (TextArea.init f0).right = f0.right := by
      simp [TextArea.init, TextArea.add]
    rw [this]
  · rw [foldl_add_top]
    have : (TextArea.init f0).top = f0.top := by
      simp [TextArea.init, TextArea.add]
    rw [this]
  · rw [foldl_add_bottom]
    have : (TextArea.init f0).bottom = f0.bottom := by
      simp [TextArea.init, TextArea.add]
    rw [this]
  · intro b f
    exact ⟨min_le_left _ _, le_max_left _ _, min_le_left _ _, le_max_left _ _⟩

/-- C8: after every `add`, the grab allowance is `[0, 0, 0, 0]` except that
the right component equals the added fragment's `rhsfollow` prop when the
fragment carries one (and 0 otherwise) — only the most recently added
fragment's allowance is honoured, and left/top/bottom are always 0. -/
theorem add_grab_allowance (a : TextArea) (item : Frag) :
    (a.add item).grab = ⟨0, item.props.rhsfollow.getD 0, 0, 0⟩ := rfl

/-- C9: the finalization step of `group` cannot hit the line clusterer's
empty-input failure: starting from any grouper whose areas all hold at least
one fragment (in particular a fresh or cleared one, which has no areas),
after `group` every area still holds at least one fragment and its assigned
`lines` is populated (`calc_lines` succeeded on its items). -/
theorem group_finalization_safe (g g2 : TextGrouper) (items : List Frag)
    (hinv : ∀ a ∈ g.areas, a.items ≠ [])
    (hg : g.group items = some g2) :
    ∀ a ∈ g2.areas, a.items ≠ [] ∧ a.lines.isSome := by
  unfold TextGrouper.group at hg
  cases hcl : calc_lines items with
  | none => rw [hcl] at hg; exact absurd hg (by simp)
  | some lns =>
    rw [hcl] at hg
    have hg2 := Option.some.inj hg
    intro a ha
    rw [← hg2] at ha
    simp only [List.mem_map] at ha
    obtain ⟨b, hb, hab⟩ := ha
    have hbne : b.items ≠ [] :=
      foldl_groupStep_nonempty _ g hinv b hb
    rw [← hab]
    exact ⟨hbne, calc_lines_isSome b.items hbne⟩

/-- Witness for `group_finalization_safe` on the one-fragment page
`[crossFragX]` grouped from a fresh grouper. -/
theorem group_finalization_safe_witness : wArea.items ≠ [] ∧ wArea.lines.isSome := by
  have happ := group_finalization_safe TextGrouper.mkNew wGrouped [crossFragX]
    (by intro a ha; simp [TextGrouper.mkNew] at ha) rfl
  apply happ wArea
  have h : wGrouped.areas = [wArea] := rfl
  rw [h]
  exact List.mem_singleton.mpr rfl

theorem closestSpec_extend_inelig (item : Frag) (areas : List TextArea) (k : Nat)
    (hk : k < areas.length) (acc : Option (Nat × ℚ × ℚ × ℚ))
    (helig : eligibleArea item (areas.get ⟨k, hk⟩) = false)
    (hacc : ClosestSpec item areas k acc) :
    ClosestSpec item areas (k + 1) acc := by
  cases acc with
  | none =>
    simp only [ClosestSpec] at hacc ⊢
    intro m hm hmk
    rcases Nat.lt_succ_iff_lt_or_eq.mp hmk with h | h
    · exact hacc m hm h
    · subst h
      exact helig
  | some t =>
    obtain ⟨n, d, hd, vd⟩ := t
    simp only [ClosestSpec] at hacc ⊢
    obtain ⟨hnk, hn, he, hdist, hmin⟩ := hacc
    refine ⟨Nat.lt_succ_of_lt hnk, hn, he, hdist, ?_⟩
    intro m hm hmk hel
    rcases Nat.lt_succ_iff_lt_or_eq.mp hmk with h | h
    · exact hmin m hm h hel
    · subst h
      have hf : eligibleArea item (areas.get ⟨m, hm⟩) = false := helig
      rw [hel] at hf
      exact absurd hf (by simp)

theorem closestSpec_extend_elig_none (item : Frag) (areas : List TextArea) (k : Nat)
    (hk : k < areas.length) (hd vd d : ℚ)
    (helig : eligibleArea item (areas.get ⟨k, hk⟩) = true)
    (hdist : (areas.get ⟨k, hk⟩).dist item = (hd, vd, d))
    (hacc : ClosestSpec item areas k none) :
    ClosestSpec item areas (k + 1) (some (k, d, hd, vd)) := by
  simp only [ClosestSpec] at hacc ⊢
  refine ⟨Nat.lt_succ_self k, hk, helig, hdist, ?_⟩
  intro m hm hmk hel
  rcases Nat.lt_succ_iff_lt_or_eq.mp hmk with h | h
  · have hf : eligibleArea item (areas.get ⟨m, hm⟩) = false := hacc m hm h
    rw [hel] at hf
    exact absurd hf (by simp)
  · subst h
    have hq : ((areas.get ⟨m, hm⟩).dist item) = (hd, vd, d) := hdist
    rw [hq]
    exact ⟨le_refl d, fun _ => le_refl m⟩

theorem closestSpec_extend_elig_better (item : Frag) (areas : List TextArea) (k : Nat)
    (hk : k < areas.length) (hd vd d : ℚ) (n0 : Nat) (d0 h0 v0 : ℚ)
    (helig : eligibleArea item (areas.get ⟨k, hk⟩) = true)
    (hdist : (areas.get ⟨k, hk⟩).dist item = (hd, vd, d))
    (hlt : d < d0)
    (hacc : ClosestSpec item areas k (some (n0, d0, h0, v0))) :
    ClosestSpec item areas (k + 1) (some (k, d, hd, vd)) := by
  simp only [ClosestSpec] at hacc ⊢
  obtain ⟨hnk, hn, he, hd0, hmin⟩ := hacc
  refine ⟨Nat.lt_succ_self k, hk, helig, hdist, ?_⟩
  intro m hm hmk hel
  rcases Nat.lt_succ_iff_lt_or_eq.mp hmk with h | h
  · obtain ⟨hle, _⟩ := hmin m hm h hel
    constructor
    · exact le_trans (le_of_lt hlt) hle
    · intro heq
      exact absurd (lt_of_lt_of_le hlt (heq ▸ hle)) (lt_irrefl _)
  · subst h
    have hq : ((areas.get ⟨m, hm⟩).dist item) = (hd, vd, d) := hdist
    rw [hq]
    exact ⟨le_refl d, fun _ => le_refl m⟩

theorem closestSpec_extend_elig_keep (item : Frag) (areas : List TextArea) (k : Nat)
    (hk : k < areas.length) (hd vd d : ℚ) (n0 : Nat) (d0 h0 v0 : ℚ)
    (helig : eligibleArea item (areas.get ⟨k, hk⟩) = true)
    (hdist : (areas.get ⟨k, hk⟩).dist item = (hd, vd, d))
    (hge : d0 ≤ d)
    (hacc : ClosestSpec item areas k (some (n0, d0, h0, v0))) :
    ClosestSpec item areas (k + 1) (some (n0, d0, h0, v0)) := by
  simp only [ClosestSpec] at hacc ⊢
  obtain ⟨hnk, hn, he, hd0, hmin⟩ := hacc
  refine ⟨Nat.lt_succ_of_lt hnk, hn, he, hd0, ?_⟩
  intro m hm hmk hel
  rcases Nat.lt_succ_iff_lt_or_eq.mp hmk with h | h
  · exact hmin m hm h hel
  · subst h
    have hq : ((areas.get ⟨m, hm⟩).dist item) = (hd, vd, d) := hdist
    rw [hq]
    exact ⟨hge, fun _ => le_of_lt hnk⟩

theorem findClosest_go (item : Frag) (areas : List TextArea) :
    ∀ (l : List TextArea) (k : Nat) (acc : Option (Nat × ℚ × ℚ × ℚ)),
      areas.drop k = l →
      ClosestSpec item areas k acc →
      ClosestSpec item areas areas.length (findClosest item l k acc) := by
  intro l
  induction l with
  | nil =>
    intro k acc hdrop hacc
    have hlen : areas.length ≤ k := by
      have h0 := congrArg List.length hdrop
      simp only [List.length_drop, List.length_nil] at h0
      omega
    cases acc with
    | none =>
      simp only [findClosest, ClosestSpec] at hacc ⊢
      intro m hm _
      exact hacc m hm (lt_of_lt_of_le hm hlen)
    | some t =>
      obtain ⟨n, d, hd, vd⟩ := t
      simp only [findClosest, ClosestSpec] at hacc ⊢
      obtain ⟨hnk, hn, he, hdist, hmin⟩ := hacc
      exact ⟨hn, hn, he, hdist, fun m hm _ hel => hmin m hm (lt_of_lt_of_le hm hlen) hel⟩
  | cons a rest ih =>
    intro k acc hdrop hacc
    have hk : k < areas.length := by
      have h0 := congrArg List.length hdrop
      simp only [List.length_drop, List.length_cons] at h0
      omega
    have h2 := List.drop_eq_getElem_cons hk
    rw [hdrop] at h2
    injection h2 with hh1 hh2
    have hget : areas.get ⟨k, hk⟩ = a := by
      rw [List.get_eq_getElem]
      exact hh1.symm
    have hdrop2 : areas.drop (k + 1) = rest := hh2.symm
    simp only [findClosest]
    by_cases helig : eligibleArea item a = true
    · rw [if_pos helig]
      rcases hd3 : a.dist item with ⟨hd2, tl⟩
      obtain ⟨vd2, d2⟩ := tl
      dsimp only
      have heligk : eligibleArea item (areas.get ⟨k, hk⟩) = true := by
        rw [hget]; exact helig
      have hdistk : (areas.get ⟨k, hk⟩).dist item = (hd2, vd2, d2) := by
        rw [hget]; exact hd3
      cases acc with
      | none =>
        exact ih (k + 1) (some (k, d2, hd2, vd2)) hdrop2
          (closestSpec_extend_elig_none item areas k hk hd2 vd2 d2 heligk hdistk hacc)
      | some t =>
        obtain ⟨n0, d0, h0, v0⟩ := t
        dsimp only
        by_cases hcmp : d0 > d2
        · rw [if_pos hcmp]
          exact ih (k + 1) (some (k, d2, hd2, vd2)) hdrop2
            (closestSpec_extend_elig_better item areas k hk hd2 vd2 d2 n0 d0 h0 v0
              heligk hdistk hcmp hacc)
        · rw [if_neg hcmp]
          exact ih (k + 1) (some (n0, d0, h0, v0)) hdrop2
            (closestSpec_extend_elig_keep item areas k hk hd2 vd2 d2 n0 d0 h0 v0
              heligk hdistk (not_lt.mp hcmp) hacc)
    · rw [if_neg helig]
      have hf : eligibleArea item (areas.get ⟨k, hk⟩) = false := by
        rw [hget]
        exact Bool.not_eq_true _ ▸ helig
      exact ih (k + 1) acc hdrop2
        (closestSpec_extend_inelig item areas k hk acc hf hacc)

theorem findClosest_spec (item : Frag) (areas : List TextArea) :
    ClosestSpec item areas areas.length (findClosest item areas 0 none) := by
  apply findClosest_go item areas areas 0 none (by simp)
  simp only [ClosestSpec]
  intro m hm h0
  exact absurd h0 (Nat.not_lt_zero m)

/-- C3: the merge decision of `merge_item`.  When no eligible area exists the
scan returns `none` and a fresh one-fragment area is appended; when the scan
returns `some (n, d, hd, vd)`, the area `n` is eligible, `(hd, vd, d)` is its
distance triple, `d` is the minimal total gap over all eligible areas with
`n` the earliest index attaining it, and the item is added to that area iff
its horizontal gap is ≤ the item's font size and its vertical gap is ≤ the
item's height — otherwise (as when no candidate exists) a fresh area holding
exactly the item is appended. -/
theorem merge_item_decision (g : TextGrouper) (item : Frag) :
    (findClosest item g.areas 0 none = none →
        (∀ a ∈ g.areas, eligibleArea item a = false)
        ∧ (g.merge_item item).areas = g.areas ++ [TextArea.init item])
    ∧ ∀ n d hd vd, findClosest item g.areas 0 none = some (n, d, hd, vd) →
        ∃ hn : n < g.areas.length,
          eligibleArea item (g.areas.get ⟨n, hn⟩) = true
          ∧ (g.areas.get ⟨n, hn⟩).dist item = (hd, vd, d)
          ∧ (∀ m (hm : m < g.areas.length),
              eligibleArea item (g.areas.get ⟨m, hm⟩) = true →
              d ≤ ((g.areas.get ⟨m, hm⟩).dist item).2.2
              ∧ (((g.areas.get ⟨m, hm⟩).dist item).2.2 = d → n ≤ m))
          ∧ (g.merge_item item).areas =
              (if hd ≤ item.fontSize ∧ vd ≤ item.height
               then modifyAt g.areas n (fun a => a.add item)
               else g.areas ++ [TextArea.init item]) := by
  have hspec := findClosest_spec item g.areas
  constructor
  · intro hnone
    rw [hnone] at hspec
    simp only [ClosestSpec] at hspec
    constructor
    · intro a ha
      obtain ⟨⟨m, hm⟩, heq⟩ := List.mem_iff_get.mp ha
      rw [← heq]
      exact hspec m hm hm
    · unfold TextGrouper.merge_item
      split
      · rfl
      · rw [hnone]
  · intro n d hd vd hsome
    rw [hsome] at hspec
    simp only [ClosestSpec] at hspec
    obtain ⟨hnlen, hn, helig, hdist, hmin⟩ := hspec
    refine ⟨hn, helig, hdist, ?_, ?_⟩
    · intro m hm hel
      exact hmin m hm hm hel
    · unfold TextGrouper.merge_item
      split
      · next hempty =>
          rw [hempty] at hsome
          simp [findClosest] at hsome
      · rw [hsome]
        dsimp only
        by_cases hcond : hd ≤ item.fontSize ∧ vd ≤ item.height
        · have hnot : ¬(hd > item.fontSize ∨ vd > item.height) := by
            push_neg
            exact ⟨hcond.1, hcond.2⟩
          rw [if_pos hcond, if_neg hnot]
        · have hor : hd > item.fontSize ∨ vd > item.height := by
            rcases not_and_or.mp hcond with h | h
            · exact Or.inl (not_le.mp h)
            · exact Or.inr (not_le.mp h)
          rw [if_neg hcond, if_pos hor]

/-- Witness for `merge_item_decision`: merging `typedFrag2` into the grouper
holding the single area built from `typedFrag` adds it to that area (gaps 0,
thresholds 10). -/
theorem merge_item_decision_witness :
    ((TextGrouper.mkNew.merge_item typedFrag).merge_item typedFrag2).areas =
      modifyAt (TextGrouper.mkNew.merge_item typedFrag).areas 0
        (fun a => a.add typedFrag2) := by
  obtain ⟨hn, he, hq, hm, hres⟩ :=
    (merge_item_decision (TextGrouper.mkNew.merge_item typedFrag) typedFrag2).2
      0 0 0 0 (by decide)
  rw [hres, if_pos ⟨by decide, by decide⟩]

/-- C4: a fragment whose `type` annotation is `some t` is never merged into
an area whose `type` annotation differs: `merge_item` either appends a fresh
area holding the fragment, or adds it to an existing area whose `type`
annotation is exactly `some t`. -/
theorem typed_fragment_type_isolation (g : TextGrouper) (item : Frag) (t : String)
    (ht : item.props.type = some t) :
    (g.merge_item item).areas = g.areas ++ [TextArea.init item]
    ∨ ∃ n, ∃ hn : n < g.areas.length,
        (g.merge_item item).areas = modifyAt g.areas n (fun a => a.add item)
        ∧ (g.areas.get ⟨n, hn⟩).props.type = some t := by
  have hspec := findClosest_spec item g.areas
  unfold TextGrouper.merge_item
  split
  · exact Or.inl rfl
  · cases hfc : findClosest item g.areas 0 none with
    | none =>
      exact Or.inl rfl
    | some tup =>
      obtain ⟨n, d, hd, vd⟩ := tup
      rw [hfc] at hspec
      simp only [ClosestSpec] at hspec
      obtain ⟨hnlen, hn, helig, _, _⟩ := hspec
      have hty : (g.areas.get ⟨n, hn⟩).props.type = some t := by
        unfold eligibleArea at helig
        rw [ht] at helig
        exact of_decide_eq_true helig
      dsimp only
      split
      · exact Or.inl rfl
      · exact Or.inr ⟨n, hn, rfl, hty⟩

/-- Witness for `typed_fragment_type_isolation`: merging the typed
`typedFrag2` against the grouper holding the one area built from `typedFrag`
(same type `"h"`). -/
theorem typed_fragment_type_isolation_witness :
    ((TextGrouper.mkNew.merge_item typedFrag).merge_item typedFrag2).areas =
        (TextGrouper.mkNew.merge_item typedFrag).areas ++ [TextArea.init typedFrag2]
    ∨ ∃ n, ∃ hn : n < (TextGrouper.mkNew.merge_item typedFrag).areas.length,
        ((TextGrouper.mkNew.merge_item typedFrag).merge_item typedFrag2).areas =
          modifyAt (TextGrouper.mkNew.merge_item typedFrag).areas n
            (fun a => a.add typedFrag2)
        ∧ ((TextGrouper.mkNew.merge_item typedFrag).areas.get ⟨n, hn⟩).props.type
            = some "h" :=
  typed_fragment_type_isolation (TextGrouper.mkNew.merge_item typedFrag) typedFrag2 "h" rfl

/-- C10: `group` does not reset the area collection — areas accumulated by an
earlier `group` call remain merge candidates: grouping the page `[crossFragX]`
and then the page `[crossFragY]` on the same instance leaves a single area
containing both fragments, the second call's fragment having been merged into
the area created during the first call. -/
theorem group_no_reset_between_calls :
    ((TextGrouper.mkNew.group [crossFragX]).bind (fun g => g.group [crossFragY])).map
      (fun g => g.areas.map (fun a => a.items.map Frag.text)) = some [["x", "y"]] := by
  decide

end ScrapePdf
